import Mathlib

/-!
Verification development for the archive-tools repository.

This file gives a shallow embedding of the parts of the code that the
checked properties are about:

  * `archive/manifest.py` — `FileInfo`, `Manifest`, `_match`,
    `diff_manifest`, `_common_checksum`;
  * `archive/archive.py` — `Archive.create` / `_create` /
    `_add_metadata_files` / `_check_duplicate` / `_add_item` /
    `add_metadata` / `open`;
  * `archive/tools.py` and `src/archive/tools.py` — the `tmp_umask` and
    `tmp_chdir` scoped guards (both revisions);
  * `src/archive/bt/schedule.py` — the schedule node classes and their
    base-archive computation;
  * `FileInfo.iterpaths` — filesystem enumeration with exclusion.

Filesystem access (stat, hashing file bytes, directory listing) is made
explicit: hashing is an oracle function, directory trees are finite
trees, and paths are sequences of components.  Python exceptions are
modelled with `Except`; Python floats carrying mtimes are modelled as
rationals; `int(x)` is truncation toward zero.
-/

/-- Python exceptions that the embedded code can raise.  Exceptions from
the `archive.exception` module and relevant Python built-ins each get a
constructor.  `nameError` models an unbound name being raised at run
time; `keyError` carries the missing dictionary key. -/
inductive PyExc where
  | assertionError
  | typeError
  | keyError (key : String)
  | nameError (name : String)
  | indexError
  | attributeError
  | valueError (msg : String)
  | archiveCreateError (msg : String)
  | archiveReadError (msg : String)
  | archiveIntegrityError (msg : String)
  | noFullBackupError
deriving DecidableEq, Repr

/-- A `pathlib` path: an absolute-flag plus the name components, e.g.
`base/data/rnd.dat` is `⟨false, ["base", "data", "rnd.dat"]⟩` and
`/etc/passwd` is `⟨true, ["etc", "passwd"]⟩`. -/
structure PPath where
  absFlag : Bool
  comps : List String
deriving DecidableEq, Repr

/-- String form of a path, as `str(path)` renders it (pathlib compares
paths by this string, so it is also the sort key of manifest entries). -/
def PPath.str (p : PPath) : String :=
  (if p.absFlag then "/" else "") ++ String.intercalate "/" p.comps

/-- Key used to order paths: the code points of `str(path)`.  Python
compares strings lexicographically by code point, which is the `<` of
`List Char` in Lean. -/
def PPath.key (p : PPath) : List Char :=
  p.str.data

/-- Append one component, as `path / "name"` does in pathlib. -/
def PPath.child (p : PPath) (s : String) : PPath :=
  ⟨p.absFlag, p.comps ++ [s]⟩

/-- Final component, as `path.name` (empty for a bare root). -/
def PPath.nameOf (p : PPath) : String :=
  (p.comps.getLast?).getD ""

/-- Drop the final component, as `path.parent`. -/
def PPath.parent (p : PPath) : PPath :=
  ⟨p.absFlag, p.comps.dropLast⟩

/-- Test that `e` is a prefix of `p` (equality included): `p` is `e`
itself or lies in the subtree below `e`. -/
def PPath.under (e p : PPath) : Bool :=
  e.absFlag == p.absFlag && e.comps.isPrefixOf p.comps

/-- Python `int()` on a float: truncation toward zero.  mtimes are
rationals here; a `Rat` is stored in lowest terms with positive
denominator, so truncating division of numerator by denominator is
exactly Python `int`. -/
def pyInt (q : Rat) : Int :=
  q.num.tdiv q.den

/-- File type of a `FileInfo`: directory, regular file or symbolic
link, the three values of `archive.tools.mode_ft`.  The source stores
`st_mode` and derives the type via `mode_ft[stat.S_IFMT(st_mode)]` and
the permission bits via `stat.S_IMODE`; the embedding keeps the two
projections as separate fields, which is lossless for these types. -/
inductive FType where
  | d
  | f
  | l
deriving DecidableEq, Repr

/-- Value of the private `_checksum` slot of a file `FileInfo`.
`FileInfo.__init__(data=...)` sets it to `data['checksum'] or []`: a
non-empty dict stays a dict, while a missing/empty value becomes the
Python *list* `[]` (constructor `emptyList`).  `FileInfo.__init__(path=...)`
leaves it `None` for lazy computation, modelled by `Option.none` in the
`rawChecksum` field of `FileInfo`. -/
inductive ChecksumVal where
  | dict (entries : List (String × String))
  | emptyList
deriving DecidableEq, Repr

/-- Python subscript `cs[alg]` on a `_checksum` value: dict lookup
(`KeyError` when the key is missing), and `TypeError` when the slot
holds the `[]` list sentinel (list indices must be integers). -/
def ChecksumVal.subscript : ChecksumVal → String → Except PyExc String
  | .dict entries, alg =>
      match entries.find? (fun kv => kv.1 == alg) with
      | some kv => .ok kv.2
      | none => .error (.keyError alg)
  | .emptyList, _ => .error .typeError

/-- Lookup on a `_checksum` value that merely reports presence, used to
phrase hypotheses and the spec-side match function. -/
def ChecksumVal.lookup : ChecksumVal → String → Option String
  | .dict entries, alg => (entries.find? (fun kv => kv.1 == alg)).map (·.2)
  | .emptyList, _ => none

/-- One manifest record (`archive.manifest.FileInfo`).  Fields mirror
the attributes the code reads: `size`, `rawChecksum` are meaningful for
regular files, `target` for symbolic links; `uname`/`gname` are `None`
when the uid/gid lookup failed. -/
structure FileInfo where
  path : PPath
  ftype : FType
  uid : Int
  uname : Option String
  gid : Int
  gname : Option String
  mode : Nat
  mtime : Rat
  size : Nat
  rawChecksum : Option ChecksumVal
  target : PPath
deriving DecidableEq, Repr

/-- Hash oracle: `hash alg p` is the hex digest that streaming the file
at `p` through algorithm `alg` would produce (`archive.tools.checksum`). -/
def HashOracle := String → PPath → String

/-- The `FileInfo.checksum` property: when `_checksum` is `None` (file
info built from a path), compute `checksum(f, self.Checksums)`, which
maps every configured algorithm to the file's digest; otherwise return
the stored value.  `cfg` is the `FileInfo.Checksums` class attribute. -/
def FileInfo.checksumProp (hash : HashOracle) (cfg : List String) (fi : FileInfo) :
    ChecksumVal :=
  match fi.rawChecksum with
  | some v => v
  | none => .dict (cfg.map (fun alg => (alg, hash alg fi.path)))

/-- DiffStatus enumeration from `archive.manifest`. -/
inductive DiffStatus where
  | MATCH
  | META
  | CONTENT
  | SYMLNK_TARGET
  | TYPE
  | MISSING_A
  | MISSING_B
deriving DecidableEq, Repr

/-- Metadata comparison at the end of `_match`: `META` when any of uid,
uname, gid, gname, mode or `int(mtime)` differ, else `MATCH`. -/
def metaStatus (a b : FileInfo) : DiffStatus :=
  if a.uid ≠ b.uid ∨ a.uname ≠ b.uname ∨ a.gid ≠ b.gid ∨ a.gname ≠ b.gname ∨
      a.mode ≠ b.mode ∨ pyInt a.mtime ≠ pyInt b.mtime then
    .META
  else
    .MATCH

/-- The `_match` helper inside `diff_manifest` (archive/manifest.py).
It asserts equal paths, then checks type, symlink target, file size and
canonical checksum, and finally the metadata.  The checksum subscripts
can raise (`KeyError`/`TypeError`); Python's `or` is short-circuiting,
so the subscripts are only evaluated when both sizes coincide. -/
def diffMatch (hash : HashOracle) (cfg : List String) (a b : FileInfo)
    (alg : String) : Except PyExc DiffStatus :=
  if a.path ≠ b.path then .error .assertionError
  else if a.ftype ≠ b.ftype then .ok .TYPE
  else if a.ftype = .l then
    if a.target ≠ b.target then .ok .SYMLNK_TARGET else .ok (metaStatus a b)
  else if a.ftype = .f then
    if a.size ≠ b.size then .ok .CONTENT
    else
      match (a.checksumProp hash cfg).subscript alg with
      | .error e => .error e
      | .ok ca =>
        match (b.checksumProp hash cfg).subscript alg with
        | .error e => .error e
        | .ok cb => if ca ≠ cb then .ok .CONTENT else .ok (metaStatus a b)
  else .ok (metaStatus a b)

/-- One element yielded by `diff_manifest`: status plus the two
(possibly absent) file infos. -/
def DiffItem := DiffStatus × Option FileInfo × Option FileInfo
deriving DecidableEq, Repr

/-- The two-pointer merge of `diff_manifest` (archive/manifest.py).
The Python generator chains each iterator with `None` sentinels; the
embedding recurses on the two lists.  The first guard is
`fi_a.path > fi_b.path` (yield `MISSING_A`, advance B), the second
`fi_b.path > fi_a.path` (yield `MISSING_B`, advance A), otherwise the
paths are equal and `_match` decides the status. -/
def diffManifest (hash : HashOracle) (cfg : List String) (alg : String) :
    List FileInfo → List FileInfo → Except PyExc (List DiffItem)
  | [], [] => .ok []
  | [], b :: tb =>
      Except.map (fun l => (DiffStatus.MISSING_A, none, some b) :: l)
        (diffManifest hash cfg alg [] tb)
  | a :: ta, [] =>
      Except.map (fun l => (DiffStatus.MISSING_B, some a, none) :: l)
        (diffManifest hash cfg alg ta [])
  | a :: ta, b :: tb =>
      if b.path.key < a.path.key then
        Except.map (fun l => (DiffStatus.MISSING_A, none, some b) :: l)
          (diffManifest hash cfg alg (a :: ta) tb)
      else if a.path.key < b.path.key then
        Except.map (fun l => (DiffStatus.MISSING_B, some a, none) :: l)
          (diffManifest hash cfg alg ta (b :: tb))
      else
        match diffMatch hash cfg a b alg with
        | .error e => .error e
        | .ok s =>
            Except.map (fun l => (s, some a, some b) :: l)
              (diffManifest hash cfg alg ta tb)
termination_by la lb => la.length + lb.length

/-- Manifest header, the ordered key/value mapping written as the first
YAML document (`Manifest.__init__` in archive/manifest.py).  `metadata`
is the `Metadata` list of reserved path strings; `tags` is the optional
`Tags` list. -/
structure ManifestHead where
  checksums : List String
  date : String
  generator : String
  metadata : List String
  version : String
  tags : Option (List String)
deriving DecidableEq, Repr

/-- A manifest: header plus the ordered list of file infos. -/
structure Manifest where
  head : ManifestHead
  fileinfos : List FileInfo
deriving DecidableEq, Repr

/-- Sort key comparison used by `Manifest.sort()` with the default key
`lambda fi: fi.path`: Python's stable sort ascending by path.  `le a b`
holds when `a` need not come after `b`, i.e. `not (b.path < a.path)`. -/
def fiLe (a b : FileInfo) : Bool :=
  !decide (b.path.key < a.path.key)

/-- Sort relation on file infos as a proposition, for the sort and the
sortedness statements. -/
def fiLeP (a b : FileInfo) : Prop :=
  fiLe a b = true

instance : DecidableRel fiLeP := fun a b => by
  unfold fiLeP
  infer_instance

/-- The `Manifest.sort()` default: Python's `list.sort(key=lambda fi:
fi.path)`, a stable ascending sort by path.  A stable sort by a total
preorder is extensionally unique, so Python's merge sort is modelled by
the (equally stable) insertion sort, which the kernel can evaluate. -/
def manifestSort (fis : List FileInfo) : List FileInfo :=
  List.insertionSort fiLeP fis

/-- The header lacking the `Metadata` key, as stored in a legacy
version "1.0" manifest document.  `metadataKey` is `none` when the key
is absent. -/
structure StoredHead where
  checksums : List String
  date : String
  generator : String
  metadataKey : Option (List String)
  version : String
  tags : Option (List String)
deriving DecidableEq, Repr

/-- The `fileobj` branch of `Manifest.__init__`: parse the two
documents and apply `self.head.setdefault("Metadata", [])`, the legacy
rule for version "1.0" heads without a `Metadata` key. -/
def manifestFromStream (h : StoredHead) (fis : List FileInfo) : Manifest :=
  { head :=
      { checksums := h.checksums
        date := h.date
        generator := h.generator
        metadata := h.metadataKey.getD []
        version := h.version
        tags := h.tags }
    fileinfos := fis }

/-- The tail of `Archive.open` (archive/archive.py): the first tar
member must be named `.manifest.yaml` (else `get_metadata` raises
`ArchiveIntegrityError`); `basedir` is the member path's parent; the
manifest is parsed from the member; and when the parsed manifest has an
empty `metadata` (legacy 1.0), `<basedir>/.manifest.yaml` is appended.
`firstMember` is the path of the first tar entry, `h`/`fis` the parsed
manifest documents. -/
def archiveOpen (firstMember : PPath) (h : StoredHead) (fis : List FileInfo) :
    Except PyExc (PPath × Manifest) :=
  if firstMember.nameOf ≠ ".manifest.yaml" then
    .error (.archiveIntegrityError "metadata item not found")
  else
    let basedir := firstMember.parent
    let m := manifestFromStream h fis
    let m :=
      if m.head.metadata.isEmpty then
        { m with head := { m.head with
            metadata := m.head.metadata ++ [(basedir.child ".manifest.yaml").str] } }
      else m
    .ok (basedir, m)

/-- The `_common_checksum` helper of archive/manifest.py: return the
first algorithm of `a`'s header `Checksums` list that also occurs in
`b`'s.  When none exists the source executes
`raise ArchiveReadError(...)`, but archive/manifest.py only imports
`ArchiveInvalidTypeError` and `ArchiveWarning` from `archive.exception`
(line 17), so the name `ArchiveReadError` is unbound there and Python
raises `NameError: name 'ArchiveReadError' is not defined` instead. -/
def commonChecksum (a b : Manifest) : Except PyExc String :=
  match a.head.checksums.find? (fun alg => b.head.checksums.contains alg) with
  | some alg => .ok alg
  | none => .error (.nameError "ArchiveReadError")

/-- One record of the archive index, as seen by the schedule classes
(`archive.index.IndexItem`).  The classes only read the `schedule`
attribute (`None` when the archive carried no `schedule:` tag) and
compare items; `IndexItem` defines no `__eq__`, so Python equality is
object identity, modelled by giving every item a distinct `ident`. -/
structure IndexItemM where
  ident : Nat
  schedule : Option String
deriving DecidableEq, Repr

/-- A schedule node chain (src/archive/bt/schedule.py).  Nodes are
linked through their `parent` attribute; a `full` node is a root.
The calendar expression (`ScheduleDate`) plays no role in the
base-archive computation and is omitted. -/
inductive Schedule where
  | full (name : String)
  | cumu (name : String) (parent : Schedule)
  | incr (name : String) (parent : Schedule)
deriving DecidableEq, Repr

/-- The scan `for i in archives: if i.schedule == self.name: last = i`:
the last index item whose `schedule` equals the node name.  Comparing
`None == name` is `False` in Python, hence the `Option` comparison. -/
def lastNamed (name : String) (archives : List IndexItemM) : Option IndexItemM :=
  archives.foldl (fun acc i => if i.schedule = some name then some i else acc) none

/-- Python `list.index(x)`: position of the first element equal to `x`,
`ValueError` when absent. -/
def pyIndex (archives : List IndexItemM) (x : IndexItemM) : Except PyExc Nat :=
  match archives.findIdx? (fun i => i = x) with
  | some n => .ok n
  | none => .error (.valueError "x not in list")

/-- The `get_child_base_archives` methods of `FullSchedule`,
`CumuSchedule` and `IncrSchedule`.  `full`: the most recent archive of
this name, `NoFullBackupError` when none.  `cumu`: the parent's child
base plus the most recent cumulative archive of this name after the
last base element.  `incr`: equal to `get_base_archives`, i.e. the
parent's child base plus every archive of this name after the last base
element (`archives[p_idx+1:]`). -/
def getChildBaseArchives : Schedule → List IndexItemM →
    Except PyExc (List IndexItemM)
  | .full name, archives =>
      match lastNamed name archives with
      | some lastFull => .ok [lastFull]
      | none => .error .noFullBackupError
  | .cumu name parent, archives => do
      let base ← getChildBaseArchives parent archives
      match base.getLast? with
      | none => .error .indexError
      | some lastBase => do
        let pIdx ← pyIndex archives lastBase
        match lastNamed name (archives.drop (pIdx + 1)) with
        | some lastCumu => .ok (base ++ [lastCumu])
        | none => .ok base
  | .incr name parent, archives => do
      let base ← getChildBaseArchives parent archives
      match base.getLast? with
      | none => .error .indexError
      | some lastBase => do
        let pIdx ← pyIndex archives lastBase
        .ok (base ++ (archives.drop (pIdx + 1)).filter
              (fun i => i.schedule = some name))

/-- The `get_base_archives` methods: `full` returns `[]`; `cumu`
delegates to its parent's `get_child_base_archives`; `incr` shares its
own `get_child_base_archives` body. -/
def getBaseArchives : Schedule → List IndexItemM → Except PyExc (List IndexItemM)
  | .full _, _ => .ok []
  | .cumu _ parent, archives => getChildBaseArchives parent archives
  | .incr name parent, archives => getChildBaseArchives (.incr name parent) archives

/-- Process-global state touched by the scoped guards: the umask and
the current working directory. -/
structure OSState where
  umask : Nat
  cwd : String
deriving DecidableEq, Repr

/-- Python truthiness of the `save_mask` slot: `None` and `0` are
falsy. -/
def pyTruthyOptNat : Option Nat → Bool
  | none => false
  | some n => n != 0

/-- The class-based `tmp_umask` guard of archive/tools.py, run around a
body: `__enter__` stores `os.umask(mask)` in `save_mask`; on every exit
(`__exit__` and `__del__` both call `_restore_mask`) the saved mask is
written back only when `if self.save_mask:` is truthy.  The body returns
`none` to model an exception escaping the `with` block; `__exit__` runs
either way. -/
def withTmpUmaskOld {α : Type} (mask : Nat)
    (body : OSState → Option α × OSState) (s : OSState) : Option α × OSState :=
  let saveMask : Option Nat := some s.umask
  let s1 := { s with umask := mask }
  let (r, s2) := body s1
  let s3 := if pyTruthyOptNat saveMask then
      { s2 with umask := saveMask.getD 0 }
    else s2
  (r, s3)

/-- The rewritten `tmp_umask` of src/archive/tools.py: a
`@contextmanager` generator whose `finally:` block executes
`os.umask(save_mask)` unconditionally on every exit path. -/
def withTmpUmaskNew {α : Type} (mask : Nat)
    (body : OSState → Option α × OSState) (s : OSState) : Option α × OSState :=
  let saveMask := s.umask
  let s1 := { s with umask := mask }
  let (r, s2) := body s1
  (r, { s2 with umask := saveMask })

/-- The class-based `tmp_chdir` guard of archive/tools.py: `__enter__`
stores `os.getcwd()` (a non-empty string) and changes directory; every
exit path runs `_restore_dir`, which changes back when `if
self.save_dir:` is truthy, i.e. whenever the saved string is not
empty. -/
def withTmpChdirOld {α : Type} (dir : String)
    (body : OSState → Option α × OSState) (s : OSState) : Option α × OSState :=
  let saveDir := s.cwd
  let s1 := { s with cwd := dir }
  let (r, s2) := body s1
  let s3 := if saveDir ≠ "" then { s2 with cwd := saveDir } else s2
  (r, s3)

/-- Kind of a filesystem entity as `lstat` classifies it: directory,
regular file, symbolic link, or anything else (FIFO, socket, device),
for which `FileInfo.__init__` raises `ArchiveInvalidTypeError`. -/
inductive FSKind where
  | dir
  | file
  | symlink
  | other
deriving DecidableEq, Repr

/-- Stat data of one filesystem entity, the fields `FileInfo.__init__`
reads from `lstat` (plus the link target from `os.readlink`). -/
structure FSMeta where
  uid : Int
  uname : Option String
  gid : Int
  gname : Option String
  mode : Nat
  mtime : Rat
  size : Nat
  target : PPath
deriving DecidableEq, Repr

/-- A finite directory tree: entry name, kind, stat data, children (in
the order `Path.iterdir` lists them; only meaningful for directories). -/
inductive FSTree where
  | mk (name : String) (kind : FSKind) (meta : FSMeta) (children : List FSTree)

def FSTree.nameOf : FSTree → String
  | .mk n _ _ _ => n

def FSTree.kind : FSTree → FSKind
  | .mk _ k _ _ => k

def FSTree.meta : FSTree → FSMeta
  | .mk _ _ m _ => m

def FSTree.children : FSTree → List FSTree
  | .mk _ _ _ cs => cs

/-- The path constructor `FileInfo(path=p)` applied to the entity `t`
found at `p`: build the record from the stat data (checksum left `None`
for lazy computation), or raise `ArchiveInvalidTypeError` for an
unsupported type. -/
def mkFileInfo (p : PPath) (t : FSTree) : Except PyExc FileInfo :=
  match t.kind with
  | .other => .error (.archiveCreateError "invalid type")
  | .dir => .ok ⟨p, .d, t.meta.uid, t.meta.uname, t.meta.gid, t.meta.gname,
      t.meta.mode, t.meta.mtime, 0, none, ⟨false, []⟩⟩
  | .file => .ok ⟨p, .f, t.meta.uid, t.meta.uname, t.meta.gid, t.meta.gname,
      t.meta.mode, t.meta.mtime, t.meta.size, none, ⟨false, []⟩⟩
  | .symlink => .ok ⟨p, .l, t.meta.uid, t.meta.uname, t.meta.gid, t.meta.gname,
      t.meta.mode, t.meta.mtime, 0, none, t.meta.target⟩

/-- The generator `FileInfo.iterpaths(paths, excludes)`.  `roots` pairs
each path to visit with the filesystem subtree found there (top level:
the caller's `paths` argument; recursion: `p.iterdir()`).  A path in
`excludes` is dropped before the `FileInfo` is built; an
`ArchiveInvalidTypeError` is warned about and skipped; after yielding,
the consumer may send a skip signal (`skip info = true`) and descent
into a directory's children only happens otherwise. -/
def iterpaths (skip : FileInfo → Bool) (excludes : List PPath) :
    List (PPath × FSTree) → List FileInfo
  | [] => []
  | (p, t) :: rest =>
      (if excludes.contains p then []
       else
         match mkFileInfo p t with
         | .error _ => []
         | .ok info =>
             info ::
               (if skip info then []
                else if info.ftype = .d then
                  iterpaths skip excludes
                    (t.children.map (fun c => (p.child c.nameOf, c)))
                else []))
      ++ iterpaths skip excludes rest
termination_by roots => sizeOf (roots.map Prod.snd)
decreasing_by
  · have he : (Prod.snd ∘ fun c : FSTree => (p.child c.nameOf, c)) = fun c => c := rfl
    simp only [List.map_map, List.map_cons, he, List.map_id']
    cases t with
    | mk n k m cs =>
      simp [FSTree.children]
      omega
  · simp only [List.map_cons]
    simp


/-- Deduplication policy (`archive.archive.DedupMode`). -/
inductive DedupMode where
  | never
  | link
  | content
deriving DecidableEq, Repr

/-- Stat results read by `_check_duplicate` under `DedupMode.LINK`. -/
structure StatRes where
  nlink : Nat
  dev : Nat
  ino : Nat
deriving DecidableEq, Repr

/-- The filesystem effects used during archive creation: hashing file
bytes, `Path.stat`, and the `_is_normalized` predicate (which resolves
the path on the real filesystem). -/
structure FSOracle where
  hash : HashOracle
  stat : PPath → StatRes
  isNormalized : PPath → Bool

/-- Key of the dedup index `_dupindex`: `(st_dev, st_ino)` under LINK,
the canonical content digest under CONTENT. -/
inductive DupKey where
  | inode (dev ino : Nat)
  | digest (val : String)
deriving DecidableEq, Repr

/-- Kind of a written tar member: metadata file (with its
`S_IFREG | S_IMODE(mode)` permission bits), regular file content,
hard link, or a header taken verbatim from `gettarinfo` for
directories and symlinks (whose exact header fields none of the
verified claims constrain). -/
inductive TKind where
  | metaFile (mode : Nat)
  | regular (size : Nat)
  | hardlink (linkname : String)
  | fsOther
deriving DecidableEq, Repr

/-- One tar member as emitted by `_create`. -/
structure TarEntry where
  name : String
  kind : TKind
deriving DecidableEq, Repr

/-- A registered metadata item (`archive.archive.MetadataItem` as used
by `Archive.add_metadata`): name, path (set once basedir is known), and
mode. -/
structure MetadataItemM where
  name : String
  path : Option PPath
  mode : Nat
deriving DecidableEq, Repr

/-- Python `str(md.path)`; `str(None)` is the string "None" (the path
is always set before this is reached). -/
def mdPathStr (md : MetadataItemM) : String :=
  match md.path with
  | some p => p.str
  | none => "None"

/-- The archive name of a path (`Archive._arcname`): absolute paths are
re-rooted below `basedir` (`basedir / p.relative_to(p.root)`), relative
paths are used as-is. -/
def arcname (basedir : PPath) (p : PPath) : String :=
  if p.absFlag then PPath.str ⟨false, basedir.comps ++ p.comps⟩ else p.str

/-- Dict operations on `_dupindex`: return the stored name for a
present key; otherwise store `name` under the key and report no
duplicate. -/
def dupLookupOrAdd (idx : List (DupKey × String)) (k : DupKey) (name : String) :
    Option String × List (DupKey × String) :=
  match idx.find? (fun kv => kv.1 = k) with
  | some kv => (some kv.2, idx)
  | none => (none, idx ++ [(k, name)])

/-- `Archive._check_duplicate` (archive/archive.py): decide whether the
file should be written as a hard link to an earlier member.  LINK keys
files with `st_nlink > 1` by `(st_dev, st_ino)`; CONTENT keys by the
digest under `FileInfo.Checksums[0]` (the `except IndexError` branch
makes an empty algorithm list mean "never a duplicate"); any other mode
returns no duplicate.  The initial `assert fileinfo.is_file()` is
modelled as an `AssertionError`. -/
def checkDuplicate (fs : FSOracle) (cfg : List String) (dedup : DedupMode)
    (idx : List (DupKey × String)) (fi : FileInfo) (name : String) :
    Except PyExc (Option String × List (DupKey × String)) :=
  if fi.ftype ≠ .f then .error .assertionError
  else
    match dedup with
    | .link =>
        let st := fs.stat fi.path
        if st.nlink = 1 then .ok (none, idx)
        else .ok (dupLookupOrAdd idx (.inode st.dev st.ino) name)
    | .content =>
        match cfg.head? with
        | none => .ok (none, idx)
        | some halg =>
            match (fi.checksumProp fs.hash cfg).subscript halg with
            | .error e => .error e
            | .ok key => .ok (dupLookupOrAdd idx (.digest key) name)
    | .never => .ok (none, idx)

/-- `Archive._add_item`: regular files are stored in full unless
`_check_duplicate` names an earlier member, in which case a hard-link
member is emitted; other types get their `gettarinfo` header. -/
def addItem (fs : FSOracle) (cfg : List String) (dedup : DedupMode)
    (idx : List (DupKey × String)) (fi : FileInfo) (an : String) :
    Except PyExc (TarEntry × List (DupKey × String)) :=
  if fi.ftype = .f then
    match checkDuplicate fs cfg dedup idx fi an with
    | .error e => .error e
    | .ok (some link, idx2) => .ok (⟨an, .hardlink link⟩, idx2)
    | .ok (none, idx2) => .ok (⟨an, .regular fi.size⟩, idx2)
  else .ok (⟨an, .fsOther⟩, idx)

/-- The content loop of `Archive._create`: for each manifest entry,
compute the archive name, refuse names already taken by metadata
("filename is reserved"), and emit the member, threading the dedup
index. -/
def addItems (fs : FSOracle) (cfg : List String) (dedup : DedupMode)
    (basedir : PPath) (mdNames : List String) (idx : List (DupKey × String)) :
    List FileInfo → Except PyExc (List TarEntry)
  | [] => .ok []
  | fi :: rest =>
      let an := arcname basedir fi.path
      if mdNames.contains an then
        .error (.archiveCreateError "filename is reserved")
      else
        match addItem fs cfg dedup idx fi an with
        | .error e => .error e
        | .ok (entry, idx2) =>
            Except.map (fun es => entry :: es)
              (addItems fs cfg dedup basedir mdNames idx2 rest)

/-- `Archive._add_metadata_files`: write the metadata members in list
order, collecting their names and refusing duplicates; each member's
mode is `S_IFREG | S_IMODE(md.mode)`. -/
def addMetadataFiles (seen : List String) :
    List MetadataItemM → Except PyExc (List TarEntry × List String)
  | [] => .ok ([], seen)
  | md :: rest =>
      let name := mdPathStr md
      if seen.contains name then .error (.archiveCreateError "duplicate metadata")
      else
        Except.map (fun r => (TarEntry.mk name (.metaFile (md.mode &&& 0o7777)) :: r.1, r.2))
          (addMetadataFiles (seen ++ [name]) rest)

/-- The per-path loop of `Archive._check_paths` over
`itertools.chain(paths, excludes or ())`: each path must be normalized,
agree with the first path on absoluteness, and — when relative — start
with `basedir` (`p.relative_to(self.basedir)` succeeds exactly when
`basedir`'s components are a prefix). -/
def checkEachPath (fs : FSOracle) (abspath : Bool) (basedir : PPath) :
    List PPath → Except PyExc Unit
  | [] => .ok ()
  | p :: rest =>
      if ¬ fs.isNormalized p then
        .error (.archiveCreateError "must be normalized")
      else if abspath ≠ p.absFlag then
        .error (.archiveCreateError "mixing of absolute and relative paths is not allowed")
      else if ¬ p.absFlag ∧ ¬ (basedir.comps.isPrefixOf p.comps) then
        .error (.archiveCreateError "must be a subpath of base directory")
      else checkEachPath fs abspath basedir rest

/-- `Archive._check_paths`: refuse an empty path list, derive `basedir`
(caller-supplied; else the archive file name's first dot-delimited
segment when the first path is absolute; else the first component of
the first path), refuse an absolute basedir, and run the per-path
checks.  `apn` is `self.path.name`. -/
def checkPaths (fs : FSOracle) (paths : List PPath) (basedirOpt : Option PPath)
    (apn : String) (excludes : List PPath) : Except PyExc PPath :=
  match paths with
  | [] => .error (.archiveCreateError "refusing to create an empty archive")
  | p0 :: _ =>
    let abspath := p0.absFlag
    let basedirE : Except PyExc PPath :=
      match basedirOpt with
      | some bd => .ok bd
      | none =>
        if abspath then .ok ⟨false, [(apn.splitOn ".").headD ""]⟩
        else
          match p0.comps.head? with
          | some c => .ok ⟨false, [c]⟩
          | none => .error .indexError
    match basedirE with
    | .error e => .error e
    | .ok basedir =>
      if basedir.absFlag then .error (.archiveCreateError "basedir must be relative")
      else
        match checkEachPath fs abspath basedir (paths ++ excludes) with
        | .error e => .error e
        | .ok _ => .ok basedir

/-- Python `.keys()` on a `_checksum` value: the dict keys, or
`AttributeError` on the `[]` list sentinel. -/
def checksumKeys : ChecksumVal → Except PyExc (List String)
  | .dict entries => .ok (entries.map (·.1))
  | .emptyList => .error .attributeError

/-- The check in the `fileinfos` branch of `Manifest.__init__`: every
regular file must carry a checksum for every configured algorithm
(`cs.issubset(fi.checksum.keys())`), else `ValueError`. -/
def checkFileinfoChecksums (hash : HashOracle) (cfg : List String) :
    List FileInfo → Except PyExc Unit
  | [] => .ok ()
  | fi :: rest =>
      if fi.ftype = .f then
        match checksumKeys (fi.checksumProp hash cfg) with
        | .error e => .error e
        | .ok keys =>
            if cfg.all (fun c => keys.contains c) then
              checkFileinfoChecksums hash cfg rest
            else .error (.valueError "Missing checksum")
      else checkFileinfoChecksums hash cfg rest

/-- The `fileinfos` branch of `Manifest.__init__`: build the header
(`Checksums` is `FileInfo.Checksums`, `Metadata` starts empty, `Tags`
only when given), validate the checksums, and `self.sort()`. -/
def manifestFromFileinfos (hash : HashOracle) (cfg : List String)
    (dateStr genStr : String) (tags : Option (List String))
    (fis : List FileInfo) : Except PyExc Manifest :=
  match checkFileinfoChecksums hash cfg fis with
  | .error e => .error e
  | .ok _ =>
      .ok { head := { checksums := cfg, date := dateStr, generator := genStr,
                      metadata := [], version := "1.1", tags := tags }
            fileinfos := manifestSort fis }

/-- `Manifest.find`: first entry with the given path, if any. -/
def Manifest.find (m : Manifest) (p : PPath) : Option FileInfo :=
  m.fileinfos.find? (fun fi => fi.path = p)

/-- Result of a successful `Archive.create`: the derived basedir, the
manifest, and the tar members in written order. -/
structure CreateRes where
  basedir : PPath
  manifest : Manifest
  entries : List TarEntry
deriving DecidableEq, Repr

/-- `Archive.create` followed by `Archive._create`, for the `fileinfos`
branch.  `registered` lists the `(name, mode)` arguments of the
`Archive.add_metadata` calls made before `create`, in call order; each
call does `self._metadata.insert(0, md)` (modelled by the prepending
fold).  `create` then derives the basedir, builds and checks the
manifest (`ValueError` becomes `ArchiveCreateError`), refuses a
non-directory basedir entry, appends `<basedir>/.manifest.yaml` and
then each registered item's path to the header's `Metadata`, and
`_create` writes the metadata members (the manifest member is
registered last, hence first) followed by the content members. -/
def archiveCreate (fs : FSOracle) (cfg : List String) (dedup : DedupMode)
    (apn : String) (dateStr genStr : String)
    (registered : List (String × Nat)) (fis : List FileInfo)
    (basedirOpt : Option PPath) (tags : Option (List String)) :
    Except PyExc CreateRes :=
  let metadataReg := registered.foldl
    (fun acc nm => MetadataItemM.mk nm.1 none nm.2 :: acc) []
  match checkPaths fs (fis.map (·.path)) basedirOpt apn [] with
  | .error e => .error e
  | .ok basedir =>
    match manifestFromFileinfos fs.hash cfg dateStr genStr tags fis with
    | .error (.valueError m) =>
        .error (.archiveCreateError ("invalid fileinfos: " ++ m))
    | .error e => .error e
    | .ok mfst0 =>
      let bdOk : Bool :=
        match mfst0.find basedir with
        | some bdfi => bdfi.ftype = .d
        | none => true
      if ¬ bdOk then
        .error (.archiveCreateError "base directory must be a directory")
      else
        let mdWithPaths := metadataReg.map
          (fun md => { md with path := some (basedir.child md.name) })
        let mdList := (basedir.child ".manifest.yaml").str ::
          mdWithPaths.map (fun md => (basedir.child md.name).str)
        let mfst := { mfst0 with head := { mfst0.head with metadata := mdList } }
        let fullMeta :=
          MetadataItemM.mk ".manifest.yaml" (some (basedir.child ".manifest.yaml"))
            0o444 :: mdWithPaths
        match addMetadataFiles [] fullMeta with
        | .error e => .error e
        | .ok (mdEntries, mdNames) =>
            match addItems fs cfg dedup basedir mdNames [] mfst.fileinfos with
            | .error e => .error e
            | .ok contentEntries =>
                .ok ⟨basedir, mfst, mdEntries ++ contentEntries⟩

/-- Modelled from the spec's match rules (the claim wording), for
comparison against `diffMatch`: on equal paths the status is, in
priority order, `TYPE` if the types differ; else `SYMLNK_TARGET` if
both are symlinks with different targets; else `CONTENT` if both are
regular files and size or the canonical checksum differs; else `META`
if any of uid, uname, gid, gname, mode or the integer parts of the
mtimes differ; else `MATCH`. -/
def diffStatusSpec (hash : HashOracle) (cfg : List String) (a b : FileInfo)
    (alg : String) : DiffStatus :=
  if a.ftype ≠ b.ftype then .TYPE
  else if a.ftype = .l ∧ b.ftype = .l ∧ a.target ≠ b.target then .SYMLNK_TARGET
  else if a.ftype = .f ∧ b.ftype = .f ∧
      (a.size ≠ b.size ∨
        (a.checksumProp hash cfg).lookup alg ≠ (b.checksumProp hash cfg).lookup alg)
    then .CONTENT
  else if a.uid ≠ b.uid ∨ a.uname ≠ b.uname ∨ a.gid ≠ b.gid ∨ a.gname ≠ b.gname ∨
      a.mode ≠ b.mode ∨ pyInt a.mtime ≠ pyInt b.mtime then .META
  else .MATCH

/-- Exchange `MISSING_A` and `MISSING_B`; other statuses are fixed. -/
def swapStatus : DiffStatus → DiffStatus
  | .MISSING_A => .MISSING_B
  | .MISSING_B => .MISSING_A
  | s => s

/-- Swap one diff element: exchange the `MISSING` side and the two
file-info positions. -/
def swapItem : DiffItem → DiffItem
  | (s, x, y) => (swapStatus s, y, x)

/-- Hash oracle fixture for concrete evaluations. -/
def hash0 : HashOracle := fun _ _ => ""

/-- Filesystem oracle fixture: every path normalized, every file with
link count 1. -/
def fsO : FSOracle :=
  { hash := fun _ _ => "", stat := fun _ => ⟨1, 0, 0⟩, isNormalized := fun _ => true }

/-- Directory entry `base/` fixture. -/
def fiBase : FileInfo :=
  ⟨⟨false, ["base"]⟩, .d, 0, some "u", 0, some "g", 0o755, 0, 0, none, ⟨false, []⟩⟩

/-- Regular file `base/a.txt` fixture with a sha256 checksum. -/
def fiFileA : FileInfo :=
  ⟨⟨false, ["base", "a.txt"]⟩, .f, 0, some "u", 0, some "g", 0o644, 0, 3,
    some (.dict [("sha256", "aa")]), ⟨false, []⟩⟩

/-- Two file fixtures sharing the path `x` but with different digests. -/
def fiC1a : FileInfo :=
  ⟨⟨false, ["x"]⟩, .f, 0, some "u", 0, some "g", 0o644, 0, 1,
    some (.dict [("sha256", "aa")]), ⟨false, []⟩⟩

def fiC1b : FileInfo :=
  ⟨⟨false, ["x"]⟩, .f, 0, some "u", 0, some "g", 0o644, 0, 1,
    some (.dict [("sha256", "bb")]), ⟨false, []⟩⟩

/-- Directory fixtures at paths `a` and `b` for the diff-order claim. -/
def fiDirA : FileInfo :=
  ⟨⟨false, ["a"]⟩, .d, 0, some "u", 0, some "g", 0o755, 0, 0, none, ⟨false, []⟩⟩

def fiDirB : FileInfo :=
  ⟨⟨false, ["b"]⟩, .d, 0, some "u", 0, some "g", 0o755, 0, 0, none, ⟨false, []⟩⟩

/-- Regular file `base/f.dat` whose `FileInfo` was deserialized with an
empty `checksum` field, so `_checksum` holds the `[]` list sentinel. -/
def fiC8 : FileInfo :=
  ⟨⟨false, ["base", "f.dat"]⟩, .f, 0, some "u", 0, some "g", 0o600, 0, 5,
    some .emptyList, ⟨false, []⟩⟩

/-- Regular file `base/g.dat` built from a path (checksum lazy). -/
def fiC8w : FileInfo :=
  ⟨⟨false, ["base", "g.dat"]⟩, .f, 0, some "u", 0, some "g", 0o600, 0, 7,
    none, ⟨false, []⟩⟩

/-- Manifest fixtures for the common-checksum computation. -/
def mC4a : Manifest := ⟨⟨["sha256"], "D", "G", [], "1.1", none⟩, []⟩

def mC4b : Manifest := ⟨⟨["md5"], "D", "G", [], "1.1", none⟩, []⟩

def mC4c : Manifest := ⟨⟨["md5", "sha512", "sha256"], "D", "G", [], "1.1", none⟩, []⟩

def mC4d : Manifest := ⟨⟨["sha512", "sha256"], "D", "G", [], "1.1", none⟩, []⟩

/-- A legacy version "1.0" stored header: no `Metadata` key. -/
def shC5 : StoredHead := ⟨["sha256"], "D", "G", none, "1.0", none⟩

/-- Path of the manifest member inside a legacy archive. -/
def pC5 : PPath := ⟨false, ["base", ".manifest.yaml"]⟩

/-- The schedule chain declared in the order full → cumu → incr. -/
def schedFull : Schedule := .full "full"

def schedCumu : Schedule := .cumu "cumu" schedFull

def schedIncr : Schedule := .incr "incr" schedCumu

/-- The date-sorted archive index F1, I1, F2, C1, I2, C2, I3. -/
def itF1 : IndexItemM := ⟨0, some "full"⟩
def itI1 : IndexItemM := ⟨1, some "incr"⟩
def itF2 : IndexItemM := ⟨2, some "full"⟩
def itC1 : IndexItemM := ⟨3, some "cumu"⟩
def itI2 : IndexItemM := ⟨4, some "incr"⟩
def itC2 : IndexItemM := ⟨5, some "cumu"⟩
def itI3 : IndexItemM := ⟨6, some "incr"⟩

def archC3 : List IndexItemM := [itF1, itI1, itF2, itC1, itI2, itC2, itI3]

/-- Stat data fixture for filesystem trees. -/
def meta0 : FSMeta := ⟨0, some "u", 0, some "g", 0o644, 0, 1, ⟨false, []⟩⟩

/-- Tree fixtures: a directory `d` containing a file `x`, and the file
`x` on its own. -/
def treeX : FSTree := .mk "x" .file meta0 []

def treeD : FSTree := .mk "d" .dir meta0 [treeX]

/-- Roots passing both the excluded directory `d` and, separately, the
path `d/x` beneath it. -/
def rootsC10 : List (PPath × FSTree) :=
  [(⟨false, ["d"]⟩, treeD), (⟨false, ["d", "x"]⟩, treeX)]

/-- Roots passing only the excluded directory `d`. -/
def rootsC10w : List (PPath × FSTree) := [(⟨false, ["d"]⟩, treeD)]

/-- The expected result of a successful `Archive.create` over
`[fiFileA, fiBase]` with no registered metadata. -/
def resC2 : CreateRes :=
  ⟨⟨false, ["base"]⟩,
    ⟨⟨["sha256"], "D", "G", ["base/.manifest.yaml"], "1.1", none⟩,
      [fiBase, fiFileA]⟩,
    [⟨"base/.manifest.yaml", .metaFile 0o444⟩, ⟨"base", .fsOther⟩,
      ⟨"base/a.txt", .regular 3⟩]⟩

/-- The expected result of a successful `Archive.create` over
`[fiFileA, fiBase]` with two metadata items registered in the order
`a.yaml`, then `b.yaml`. -/
def resC6 : CreateRes :=
  ⟨⟨false, ["base"]⟩,
    ⟨⟨["sha256"], "D", "G",
        ["base/.manifest.yaml", "base/b.yaml", "base/a.yaml"], "1.1", none⟩,
      [fiBase, fiFileA]⟩,
    [⟨"base/.manifest.yaml", .metaFile 0o444⟩, ⟨"base/b.yaml", .metaFile 0o600⟩,
      ⟨"base/a.yaml", .metaFile 0o600⟩, ⟨"base", .fsOther⟩,
      ⟨"base/a.txt", .regular 3⟩]⟩

/-- The expected result of a successful `Archive.create` over
`[fiBase, fiC8w]` with an empty `FileInfo.Checksums` list and dedup
mode CONTENT: the lazily-checksummed file carries the empty checksum
mapping and is stored in full. -/
def resC8 : CreateRes :=
  ⟨⟨false, ["base"]⟩,
    ⟨⟨[], "D", "G", ["base/.manifest.yaml"], "1.1", none⟩,
      [fiBase, fiC8w]⟩,
    [⟨"base/.manifest.yaml", .metaFile 0o444⟩, ⟨"base", .fsOther⟩,
      ⟨"base/g.dat", .regular 7⟩]⟩

instance {ε α : Type _} [DecidableEq ε] [DecidableEq α] :
    DecidableEq (Except ε α) := fun x y =>
  match x, y with
  | .error a, .error b =>
      if h : a = b then isTrue (by rw [h]) else isFalse (fun hc => h (by injection hc))
  | .ok a, .ok b =>
      if h : a = b then isTrue (by rw [h]) else isFalse (fun hc => h (by injection hc))
  | .error _, .ok _ => isFalse (fun hc => by injection hc)
  | .ok _, .error _ => isFalse (fun hc => by injection hc)

/-- C3: for the schedule chain full → cumu → incr and the date-sorted
archive index [F1, I1, F2, C1, I2, C2, I3],
`IncrSchedule.get_base_archives` returns exactly [F2, C2, I3] and
`FullSchedule.get_base_archives` returns the empty list. -/
theorem c3_schedule_base_archives :
    getBaseArchives schedIncr archC3 = .ok [itF2, itC2, itI3] ∧
    getBaseArchives schedFull archC3 = .ok [] := by
  constructor
  · decide
  · decide

/-- C4: the diff's canonical algorithm is the first algorithm of `A`'s
`Checksums` also present in `B`'s (here "sha512", skipping the
non-common "md5" and ignoring the later common "sha256"); but with no
common algorithm the code aborts by raising the *unbound name*
`ArchiveReadError` — a `NameError` — because archive/manifest.py never
imports that exception, instead of the documented no-common-checksum
read error. -/
theorem c4_common_checksum_name_error :
    commonChecksum mC4c mC4d = .ok "sha512" ∧
    commonChecksum mC4a mC4b = .error (.nameError "ArchiveReadError") ∧
    commonChecksum mC4a mC4b ≠ .error (.archiveReadError
      "No common checksum algorithm, cannot compare archive content.") := by
  refine ⟨by decide, by decide, by decide⟩

/-- C9: the class-based `tmp_umask` guard of archive/tools.py does not
restore a prior umask of 0: `_restore_mask` guards the restoring
`os.umask` call with `if self.save_mask:`, and a saved mask of 0 is
falsy, so after the guard exits the process is left with the temporary
mask 0o077.  The rewritten guard of src/archive/tools.py restores
unconditionally in a `finally:` block; the `tmp_chdir` guard always
restores the working directory (`os.getcwd()` is never empty).  The
failure is independent of whether the body exits normally (`some`)
or by exception (`none`). -/
theorem c9_umask_zero_not_restored :
    (withTmpUmaskOld 0o077 (fun s => ((some 0 : Option Nat), s)) ⟨0, "/home"⟩).2.umask
        = 0o077 ∧
    (withTmpUmaskOld 0o077 (fun s => ((none : Option Nat), s)) ⟨0, "/home"⟩).2.umask
        = 0o077 ∧
    (withTmpUmaskOld 0o077 (fun s => ((some 0 : Option Nat), s)) ⟨0o022, "/home"⟩).2.umask
        = 0o022 ∧
    (withTmpUmaskNew 0o077 (fun s => ((some 0 : Option Nat), s)) ⟨0, "/home"⟩).2.umask
        = 0 ∧
    (withTmpChdirOld "/tmp" (fun s => ((none : Option Nat), s)) ⟨0o022, "/home"⟩).2.cwd
        = "/home" := by
  refine ⟨by decide, by decide, by decide, by decide, by decide⟩

/-- C5: opening an archive whose stored manifest header lacks the
`Metadata` key (legacy version 1.0) yields a manifest whose metadata
equals the one-element list containing `<basedir>/.manifest.yaml`,
where basedir is the manifest member's parent. -/
theorem c5_legacy_metadata (firstMember : PPath) (h : StoredHead)
    (fis : List FileInfo) (hkey : h.metadataKey = none)
    (hname : firstMember.nameOf = ".manifest.yaml") :
    (archiveOpen firstMember h fis).map (fun r => r.2.head.metadata) =
      .ok [(firstMember.parent.child ".manifest.yaml").str] := by
  simp [archiveOpen, manifestFromStream, hkey, hname, Except.map]

/-- Witness for C5 at a concrete legacy archive. -/
theorem c5_legacy_metadata_witness :
    shC5.metadataKey = none ∧ pC5.nameOf = ".manifest.yaml" ∧
    (archiveOpen pC5 shC5 []).map (fun r => r.2.head.metadata) =
      .ok ["base/.manifest.yaml"] := by
  refine ⟨by decide, by decide, ?_⟩
  have h := c5_legacy_metadata pC5 shC5 [] (by decide) (by decide)
  rw [h]
  decide

/-- C8 counterexample: a regular-file `FileInfo` whose `_checksum` slot
is the `[]` sentinel left by `data['checksum'] or []` is *not* treated
as unique — the build fails on it.  With a non-empty algorithm list,
`_check_duplicate` subscripts the `[]` value and raises `TypeError`,
and a full build aborts even earlier, in the `Manifest` constructor's
checksum-coverage check, where `[].keys()` raises `AttributeError`;
that coverage-check failure happens regardless of the configured list —
even with `FileInfo.Checksums` empty the build on such a file fails. -/
theorem c8_counterexample :
    checkDuplicate fsO ["sha256"] .content [] fiC8 "base/f.dat"
        = .error .typeError ∧
    archiveCreate fsO ["sha256"] .content "x.tar" "D" "G" [] [fiBase, fiC8]
        none none = .error .attributeError ∧
    archiveCreate fsO [] .content "x.tar" "D" "G" [] [fiBase, fiC8]
        none none = .error .attributeError := by
  refine ⟨by decide, by decide, by decide⟩

/-- C8 amended: a regular-file `FileInfo` whose checksum mapping is the
*empty dict* — the state produced by lazy computation when the
configured `FileInfo.Checksums` list is empty — is treated as unique by
dedup mode CONTENT, and no step of the build fails on account of it:
the `Manifest` constructor's checksum-coverage check passes on it,
`_check_duplicate` takes the `except IndexError` branch and reports no
duplicate without touching the dedup index, and `_add_item` stores the
file in full as a regular member (no hard link emitted). -/
theorem c8_no_checksum_unique (fs : FSOracle) (fi : FileInfo)
    (idx : List (DupKey × String)) (nm : String) (hf : fi.ftype = .f)
    (hcs : fi.checksumProp fs.hash [] = .dict []) :
    checkFileinfoChecksums fs.hash [] [fi] = .ok () ∧
    checkDuplicate fs [] .content idx fi nm = .ok (none, idx) ∧
    addItem fs [] .content idx fi nm = .ok (⟨nm, .regular fi.size⟩, idx) := by
  refine ⟨?_, ?_, ?_⟩
  · simp [checkFileinfoChecksums, checksumKeys, hf, hcs]
  · simp [checkDuplicate, hf]
  · simp [addItem, checkDuplicate, hf]

/-- Witness for C8 at a concrete lazily-checksummed file, including a
complete successful build over it with dedup mode CONTENT. -/
theorem c8_no_checksum_unique_witness :
    fiC8w.ftype = .f ∧
    fiC8w.checksumProp fsO.hash [] = .dict [] ∧
    checkFileinfoChecksums fsO.hash [] [fiC8w] = .ok () ∧
    checkDuplicate fsO [] .content [] fiC8w "base/g.dat" = .ok (none, []) ∧
    addItem fsO [] .content [] fiC8w "base/g.dat"
        = .ok (⟨"base/g.dat", .regular 7⟩, []) ∧
    archiveCreate fsO [] .content "x.tar" "D" "G" [] [fiBase, fiC8w]
        none none = .ok resC8 := by
  have h := c8_no_checksum_unique fsO fiC8w [] "base/g.dat" rfl rfl
  exact ⟨by decide, rfl, h.1, h.2.1, h.2.2, by decide⟩

/-- A successful lookup makes the Python subscript succeed with the
same value. -/
theorem subscript_of_lookup (cv : ChecksumVal) (alg v : String)
    (h : cv.lookup alg = some v) : cv.subscript alg = .ok v := by
  cases cv with
  | emptyList => simp [ChecksumVal.lookup] at h
  | dict es =>
      unfold ChecksumVal.lookup at h
      rw [Option.map_eq_some'] at h
      obtain ⟨kv, hfind, hv⟩ := h
      simp [ChecksumVal.subscript, hfind, hv]

/-- C1: for entries with equal paths, `_match` computes exactly the
priority-ordered status of the spec (TYPE, then SYMLNK_TARGET, then
CONTENT on size or canonical-checksum difference, then META on any of
uid/uname/gid/gname/mode/⌊mtime⌋, else MATCH), provided the canonical
checksums are present when both entries are regular files of equal
size; and two entries identical except for the sub-second fraction of
mtime yield MATCH. -/
theorem c1_match_priority (hash : HashOracle) (cfg : List String)
    (a b : FileInfo) (alg : String) (hpath : a.path = b.path)
    (hcs : a.ftype = .f → b.ftype = .f → a.size = b.size →
      ((a.checksumProp hash cfg).lookup alg).isSome ∧
      ((b.checksumProp hash cfg).lookup alg).isSome) :
    diffMatch hash cfg a b alg = .ok (diffStatusSpec hash cfg a b alg) ∧
    (a.ftype = b.ftype ∧ a.target = b.target ∧ a.size = b.size ∧
      a.checksumProp hash cfg = b.checksumProp hash cfg ∧
      a.uid = b.uid ∧ a.uname = b.uname ∧ a.gid = b.gid ∧ a.gname = b.gname ∧
      a.mode = b.mode ∧ pyInt a.mtime = pyInt b.mtime →
      diffMatch hash cfg a b alg = .ok .MATCH) := by
  have hmain : diffMatch hash cfg a b alg = .ok (diffStatusSpec hash cfg a b alg) := by
    by_cases ht : a.ftype = b.ftype
    · cases hft : a.ftype with
      | d =>
          have hbt : b.ftype = .d := by rw [← ht, hft]
          simp [diffMatch, diffStatusSpec, metaStatus, hpath, hft, hbt]
      | l =>
          have hbt : b.ftype = .l := by rw [← ht, hft]
          by_cases htg : a.target = b.target
          · simp [diffMatch, diffStatusSpec, metaStatus, hpath, hft, hbt, htg]
          · simp [diffMatch, diffStatusSpec, hpath, hft, hbt, htg]
      | f =>
          have hbt : b.ftype = .f := by rw [← ht, hft]
          by_cases hsz : a.size = b.size
          · obtain ⟨hsa, hsb⟩ := hcs hft hbt hsz
            obtain ⟨va, hva⟩ := Option.isSome_iff_exists.mp hsa
            obtain ⟨vb, hvb⟩ := Option.isSome_iff_exists.mp hsb
            have ha' := subscript_of_lookup _ _ _ hva
            have hb' := subscript_of_lookup _ _ _ hvb
            by_cases hv : va = vb
            · simp [diffMatch, diffStatusSpec, metaStatus, hpath, hft, hbt, hsz,
                ha', hb', hva, hvb, hv]
            · simp [diffMatch, diffStatusSpec, hpath, hft, hbt, hsz,
                ha', hb', hva, hvb, hv]
          · simp [diffMatch, diffStatusSpec, hpath, hft, hbt, hsz]
    · simp [diffMatch, diffStatusSpec, hpath, ht]
  refine ⟨hmain, fun hall => ?_⟩
  obtain ⟨h1, h2, h3, h4, h5, h6, h7, h8, h9, h10⟩ := hall
  rw [hmain]
  have : diffStatusSpec hash cfg a b alg = .MATCH := by
    simp [diffStatusSpec, h1, h2, h3, h4, h5, h6, h7, h8, h9, h10]
  rw [this]

/-- Witness for C1 at two concrete files with equal path and size but
different digests: the status is CONTENT. -/
theorem c1_match_priority_witness :
    fiC1a.path = fiC1b.path ∧
    diffMatch hash0 ["sha256"] fiC1a fiC1b "sha256" = .ok .CONTENT := by
  refine ⟨by decide, ?_⟩
  have h := (c1_match_priority hash0 ["sha256"] fiC1a fiC1b "sha256" (by decide)
    (fun _ _ _ => ⟨by decide, by decide⟩)).1
  rw [h]
  decide

/-- The metadata comparison is symmetric in its two entries. -/
theorem metaStatus_symm (a b : FileInfo) : metaStatus a b = metaStatus b a := by
  unfold metaStatus
  have hiff : (a.uid ≠ b.uid ∨ a.uname ≠ b.uname ∨ a.gid ≠ b.gid ∨
      a.gname ≠ b.gname ∨ a.mode ≠ b.mode ∨ pyInt a.mtime ≠ pyInt b.mtime) ↔
      (b.uid ≠ a.uid ∨ b.uname ≠ a.uname ∨ b.gid ≠ a.gid ∨
      b.gname ≠ a.gname ∨ b.mode ≠ a.mode ∨ pyInt b.mtime ≠ pyInt a.mtime) :=
    or_congr ne_comm (or_congr ne_comm (or_congr ne_comm (or_congr ne_comm
      (or_congr ne_comm ne_comm))))
  by_cases h : (a.uid ≠ b.uid ∨ a.uname ≠ b.uname ∨ a.gid ≠ b.gid ∨
      a.gname ≠ b.gname ∨ a.mode ≠ b.mode ∨ pyInt a.mtime ≠ pyInt b.mtime)
  · rw [if_pos h, if_pos (hiff.mp h)]
  · rw [if_neg h, if_neg (fun hc => h (hiff.mpr hc))]

/-- When `_match` succeeds, it gives the same status on the swapped
pair, and the status is never a `MISSING` one. -/
theorem diffMatch_ok_symm (hash : HashOracle) (cfg : List String)
    (a b : FileInfo) (alg : String) (s : DiffStatus)
    (h : diffMatch hash cfg a b alg = .ok s) :
    diffMatch hash cfg b a alg = .ok s ∧ swapStatus s = s := by
  have hms : ∀ x y : FileInfo, swapStatus (metaStatus x y) = metaStatus x y := by
    intro x y; unfold metaStatus; split <;> rfl
  by_cases hp : a.path = b.path
  case neg => simp [diffMatch, hp] at h
  case pos =>
  have hp' : b.path = a.path := hp.symm
  by_cases ht : a.ftype = b.ftype
  case neg =>
    have ht' : ¬ b.ftype = a.ftype := fun hc => ht hc.symm
    simp [diffMatch, hp, ht] at h
    constructor
    · simp [diffMatch, hp', ht', ← h]
    · rw [← h]; rfl
  case pos =>
  cases hft : a.ftype with
  | d =>
      have hbt : b.ftype = .d := by rw [← ht, hft]
      simp [diffMatch, hp, hft, hbt] at h
      constructor
      · simp [diffMatch, hp', hft, hbt]
        rw [metaStatus_symm b a, h]
      · rw [← h]; apply hms
  | l =>
      have hbt : b.ftype = .l := by rw [← ht, hft]
      by_cases htg : a.target = b.target
      · have htg' : b.target = a.target := htg.symm
        simp [diffMatch, hp, hft, hbt, htg] at h
        constructor
        · simp [diffMatch, hp', hft, hbt, htg']
          rw [metaStatus_symm b a, h]
        · rw [← h]; apply hms
      · have htg' : ¬ b.target = a.target := fun hc => htg hc.symm
        simp [diffMatch, hp, hft, hbt, htg] at h
        constructor
        · simp [diffMatch, hp', hft, hbt, htg', ← h]
        · rw [← h]; rfl
  | f =>
      have hbt : b.ftype = .f := by rw [← ht, hft]
      by_cases hsz : a.size = b.size
      case neg =>
        have hsz' : ¬ b.size = a.size := fun hc => hsz hc.symm
        simp [diffMatch, hp, hft, hbt, hsz] at h
        constructor
        · simp [diffMatch, hp', hft, hbt, hsz', ← h]
        · rw [← h]; rfl
      case pos =>
        have hsz' : b.size = a.size := hsz.symm
        cases hca : (a.checksumProp hash cfg).subscript alg with
        | error e => simp [diffMatch, hp, hft, hbt, hsz, hca] at h
        | ok ca =>
          cases hcb : (b.checksumProp hash cfg).subscript alg with
          | error e => simp [diffMatch, hp, hft, hbt, hsz, hca, hcb] at h
          | ok cb =>
            by_cases hv : ca = cb
            · have hv' : cb = ca := hv.symm
              simp [diffMatch, hp, hft, hbt, hsz, hca, hcb, hv] at h
              constructor
              · simp [diffMatch, hp', hft, hbt, hsz', hca, hcb, hv']
                rw [metaStatus_symm b a, h]
              · rw [← h]; apply hms
            · have hv' : ¬ cb = ca := fun hc => hv hc.symm
              simp [diffMatch, hp, hft, hbt, hsz, hca, hcb, hv] at h
              constructor
              · simp [diffMatch, hp', hft, hbt, hsz', hca, hcb, hv', ← h]
              · rw [← h]; rfl

/-- The two-pointer merge is stepwise symmetric: a successful
`diff_manifest(A, B)` determines `diff_manifest(B, A)` as the same
sequence, in the same order, with sides swapped in every element. -/
theorem diffManifest_swap (hash : HashOracle) (cfg : List String) (alg : String) :
    ∀ n (A B : List FileInfo) (l : List DiffItem),
      A.length + B.length ≤ n →
      diffManifest hash cfg alg A B = .ok l →
      diffManifest hash cfg alg B A = .ok (l.map swapItem) := by
  intro n
  induction n with
  | zero =>
      intro A B l hlen h
      cases A with
      | cons a ta => simp at hlen
      | nil =>
        cases B with
        | cons b tb => simp at hlen
        | nil =>
            simp [diffManifest] at h ⊢
            simp [← h]
  | succ n ih =>
      intro A B l hlen h
      cases A with
      | nil =>
        cases B with
        | nil =>
            simp [diffManifest] at h ⊢
            simp [← h]
        | cons b tb =>
            simp only [diffManifest] at h
            cases hrec : diffManifest hash cfg alg [] tb with
            | error e => rw [hrec] at h; simp [Except.map] at h
            | ok l' =>
                rw [hrec] at h
                simp [Except.map] at h
                have hlen' : ([] : List FileInfo).length + tb.length ≤ n := by
                  simp at hlen ⊢; omega
                have h2 := ih [] tb l' hlen' hrec
                simp only [diffManifest]
                rw [h2]
                simp [Except.map, ← h, swapItem, swapStatus]
      | cons a ta =>
        cases B with
        | nil =>
            simp only [diffManifest] at h
            cases hrec : diffManifest hash cfg alg ta [] with
            | error e => rw [hrec] at h; simp [Except.map] at h
            | ok l' =>
                rw [hrec] at h
                simp [Except.map] at h
                have hlen' : ta.length + ([] : List FileInfo).length ≤ n := by
                  simp at hlen ⊢; omega
                have h2 := ih ta [] l' hlen' hrec
                simp only [diffManifest]
                rw [h2]
                simp [Except.map, ← h, swapItem, swapStatus]
        | cons b tb =>
            by_cases hba : b.path.key < a.path.key
            · have hab : ¬ a.path.key < b.path.key := lt_asymm hba
              rw [diffManifest, if_pos hba] at h
              cases hrec : diffManifest hash cfg alg (a :: ta) tb with
              | error e => rw [hrec] at h; simp [Except.map] at h
              | ok l' =>
                  rw [hrec] at h
                  simp [Except.map] at h
                  have hlen' : (a :: ta).length + tb.length ≤ n := by
                    simp at hlen ⊢; omega
                  have h2 := ih (a :: ta) tb l' hlen' hrec
                  rw [diffManifest, if_neg hab, if_pos hba, h2]
                  simp [Except.map, ← h, swapItem, swapStatus]
            · by_cases hab : a.path.key < b.path.key
              · rw [diffManifest, if_neg hba, if_pos hab] at h
                cases hrec : diffManifest hash cfg alg ta (b :: tb) with
                | error e => rw [hrec] at h; simp [Except.map] at h
                | ok l' =>
                    rw [hrec] at h
                    simp [Except.map] at h
                    have hlen' : ta.length + (b :: tb).length ≤ n := by
                      simp at hlen ⊢; omega
                    have h2 := ih ta (b :: tb) l' hlen' hrec
                    rw [diffManifest, if_pos hab, h2]
                    simp [Except.map, ← h, swapItem, swapStatus]
              · rw [diffManifest, if_neg hba, if_neg hab] at h
                cases hm : diffMatch hash cfg a b alg with
                | error e => rw [hm] at h; simp at h
                | ok s =>
                    rw [hm] at h
                    cases hrec : diffManifest hash cfg alg ta tb with
                    | error e => rw [hrec] at h; simp [Except.map] at h
                    | ok l' =>
                        rw [hrec] at h
                        simp [Except.map] at h
                        have hlen' : ta.length + tb.length ≤ n := by
                          simp at hlen ⊢; omega
                        have h2 := ih ta tb l' hlen' hrec
                        obtain ⟨hm', hfix⟩ := diffMatch_ok_symm hash cfg a b alg s hm
                        rw [diffManifest, if_neg hab, if_neg hba, hm', h2]
                        simp [Except.map, ← h, swapItem, hfix]

/-- C7 counterexample: for the sorted one-entry manifests A = [a] and
B = [b] with `a` before `b`, `diff_manifest(A, B)` is *not* the reverse
of the swapped `diff_manifest(B, A)` — the two runs produce the swapped
elements in the same order, so reversing breaks the correspondence. -/
theorem c7_counterexample :
    diffManifest hash0 ["sha256"] "sha256" [fiDirA] [fiDirB] ≠
      Except.map (fun l => (l.map swapItem).reverse)
        (diffManifest hash0 ["sha256"] "sha256" [fiDirB] [fiDirA]) := by
  have h1 : diffManifest hash0 ["sha256"] "sha256" [fiDirA] [fiDirB] =
      .ok [(.MISSING_B, some fiDirA, none), (.MISSING_A, none, some fiDirB)] := by
    simp only [diffManifest]
    decide
  have h2 : diffManifest hash0 ["sha256"] "sha256" [fiDirB] [fiDirA] =
      .ok [(.MISSING_A, none, some fiDirA), (.MISSING_B, some fiDirB, none)] := by
    simp only [diffManifest]
    decide
  rw [h1, h2]
  decide

/-- C7 amended: for sorted manifests A and B, a successful
`diff_manifest(A, B)` equals `diff_manifest(B, A)` element by element
*in the same order* (not reversed), after replacing MISSING_A by
MISSING_B and vice versa and swapping the two FileInfo positions in
every yielded triple. -/
theorem c7_diff_swap_same_order (hash : HashOracle) (cfg : List String)
    (alg : String) (A B : List FileInfo) (l : List DiffItem)
    (_hA : List.Pairwise fiLeP A) (_hB : List.Pairwise fiLeP B)
    (h : diffManifest hash cfg alg A B = .ok l) :
    diffManifest hash cfg alg B A = .ok (l.map swapItem) :=
  diffManifest_swap hash cfg alg (A.length + B.length) A B l le_rfl h

/-- Witness for C7 at the sorted one-entry manifests. -/
theorem c7_diff_swap_same_order_witness :
    List.Pairwise fiLeP [fiDirA] ∧ List.Pairwise fiLeP [fiDirB] ∧
    diffManifest hash0 ["sha256"] "sha256" [fiDirA] [fiDirB] =
      .ok [(.MISSING_B, some fiDirA, none), (.MISSING_A, none, some fiDirB)] ∧
    diffManifest hash0 ["sha256"] "sha256" [fiDirB] [fiDirA] =
      .ok ([((.MISSING_B : DiffStatus), some fiDirA, none),
            ((.MISSING_A : DiffStatus), none, some fiDirB)].map swapItem) := by
  have hd : diffManifest hash0 ["sha256"] "sha256" [fiDirA] [fiDirB] =
      .ok [(.MISSING_B, some fiDirA, none), (.MISSING_A, none, some fiDirB)] := by
    simp only [diffManifest]
    decide
  exact ⟨List.pairwise_singleton _ _, List.pairwise_singleton _ _, hd,
    c7_diff_swap_same_order hash0 ["sha256"] "sha256" [fiDirA] [fiDirB] _
      (List.pairwise_singleton _ _) (List.pairwise_singleton _ _) hd⟩

/-- A prefix of `m ++ [x]` is a prefix of `m` or the whole list. -/
theorem isPrefixOf_append_single :
    ∀ (l m : List String) (x : String),
      List.isPrefixOf l (m ++ [x]) = true →
      List.isPrefixOf l m = true ∨ l = m ++ [x] := by
  intro l
  induction l with
  | nil => intro m x _; left; cases m <;> rfl
  | cons a l' ihl =>
      intro m x h
      cases m with
      | nil =>
          simp [List.isPrefixOf] at h
          obtain ⟨ha, hl⟩ := h
          right
          simp [ha, hl]
      | cons b m' =>
          simp only [List.cons_append, List.isPrefixOf, Bool.and_eq_true,
            beq_iff_eq] at h
          obtain ⟨hab, hpre⟩ := h
          rcases ihl m' x hpre with hl | hr
          · left; simp [List.isPrefixOf, hab, hpre, hl]
          · right; simp [hab, hr]

/-- Being at-or-below a child path means being at-or-below the parent,
or being exactly the child path. -/
theorem under_child (e p : PPath) (n : String)
    (h : PPath.under e (p.child n) = true) :
    PPath.under e p = true ∨ e = p.child n := by
  unfold PPath.under PPath.child at h ⊢
  simp only [Bool.and_eq_true, beq_iff_eq] at h
  obtain ⟨habs, hpre⟩ := h
  rcases isPrefixOf_append_single e.comps p.comps n hpre with hl | hr
  · left; simp [habs, hl]
  · right
    cases e with
    | mk ea ec => simp_all

/-- A successfully built `FileInfo` carries the path it was built
from. -/
theorem mkFileInfo_path (p : PPath) (t : FSTree) (info : FileInfo)
    (h : mkFileInfo p t = .ok info) : info.path = p := by
  unfold mkFileInfo at h
  cases hk : t.kind
  case other =>
    rw [hk] at h
    exact absurd h (by simp)
  case dir =>
    rw [hk] at h
    injection h with h2
    rw [← h2]
  case file =>
    rw [hk] at h
    injection h with h2
    rw [← h2]
  case symlink =>
    rw [hk] at h
    injection h with h2
    rw [← h2]

/-- C10 amended: if a path `e` in `excludes` is excluded, then —
provided no supplied root lies strictly beneath `e` (a root equal to
`e` is fine) — `iterpaths` yields no `FileInfo` for `e` nor for any
path beneath it: exclusion is tested before the `FileInfo` is
constructed, and descent into a directory only ever happens from its
own (excluded, hence dropped) entry, so the whole subtree is pruned. -/
theorem c10_exclude_prunes_subtree (skip : FileInfo → Bool) (ex : List PPath)
    (e : PPath) (he : e ∈ ex) (roots : List (PPath × FSTree))
    (hroots : ∀ r ∈ roots, r.1 = e ∨ PPath.under e r.1 = false) :
    ∀ fi ∈ iterpaths skip ex roots, PPath.under e fi.path = false := by
  revert hroots
  refine iterpaths.induct skip ex
    (fun roots => (∀ r ∈ roots, r.1 = e ∨ PPath.under e r.1 = false) →
      ∀ fi ∈ iterpaths skip ex roots, PPath.under e fi.path = false) ?_ ?_ roots
  · intro _ fi hfi
    simp [iterpaths] at hfi
  · intro p t rest ih1 ih2 hroots fi hfi
    simp only [iterpaths] at hfi
    rcases List.mem_append.mp hfi with hfi1 | hfi2
    · by_cases hex : ex.contains p = true
      · rw [if_pos hex] at hfi1
        simp at hfi1
      · rw [if_neg hex] at hfi1
        have hpe : p ≠ e := by
          intro hc
          apply hex
          rw [hc]
          exact List.elem_eq_true_of_mem he
        have hup : PPath.under e p = false := by
          rcases hroots (p, t) (List.mem_cons_self _ _) with h1 | h2
          · exact absurd h1 hpe
          · exact h2
        cases hmk : mkFileInfo p t with
        | error err =>
            rw [hmk] at hfi1
            simp at hfi1
        | ok info =>
            rw [hmk] at hfi1
            rcases List.mem_cons.mp hfi1 with rfl | hfi3
            · rw [mkFileInfo_path p t fi hmk]
              exact hup
            · by_cases hsk : skip info = true
              · rw [if_pos hsk] at hfi3
                simp at hfi3
              · rw [if_neg hsk] at hfi3
                by_cases hd : info.ftype = FType.d
                · rw [if_pos hd] at hfi3
                  refine ih1 ?_ fi hfi3
                  intro r hr
                  obtain ⟨c, hc, rfl⟩ := List.mem_map.mp hr
                  by_cases hu : PPath.under e (p.child c.nameOf) = true
                  · rcases under_child e p c.nameOf hu with h1 | h2
                    · rw [h1] at hup
                      exact absurd hup (by simp)
                    · left
                      exact h2.symm
                  · right
                    simpa using hu
                · rw [if_neg hd] at hfi3
                  simp at hfi3
    · refine ih2 ?_ fi hfi2
      intro r hr
      exact hroots r (List.mem_cons_of_mem _ hr)

/-- C10 counterexample: on the call whose roots are the excluded
directory `d` *and* the path `d/x` beneath it, with `d` excluded, a
`FileInfo` beneath `d` is still yielded — the quantification over every
call of `iterpaths` fails without the root proviso. -/
theorem c10_counterexample :
    (⟨false, ["d"]⟩ : PPath) ∈ [(⟨false, ["d"]⟩ : PPath)] ∧
    treeD.kind = .dir ∧
    iterpaths (fun _ => false) [⟨false, ["d"]⟩] rootsC10 =
      [⟨⟨false, ["d", "x"]⟩, .f, 0, some "u", 0, some "g", 0o644, 0, 1, none,
        ⟨false, []⟩⟩] ∧
    PPath.under ⟨false, ["d"]⟩ ⟨false, ["d", "x"]⟩ = true := by
  refine ⟨by decide, by decide, ?_, by decide⟩
  simp only [rootsC10, treeD, treeX, iterpaths]
  decide

/-- Witness for C10 with the excluded directory `d` as the only root:
nothing at or below `d` is yielded. -/
theorem c10_exclude_prunes_subtree_witness :
    (⟨false, ["d"]⟩ : PPath) ∈ [(⟨false, ["d"]⟩ : PPath)] ∧
    (∀ r ∈ rootsC10w, r.1 = (⟨false, ["d"]⟩ : PPath) ∨
      PPath.under ⟨false, ["d"]⟩ r.1 = false) ∧
    (∀ fi ∈ iterpaths (fun _ => false) [⟨false, ["d"]⟩] rootsC10w,
      PPath.under ⟨false, ["d"]⟩ fi.path = false) := by
  refine ⟨by decide, by decide, ?_⟩
  exact c10_exclude_prunes_subtree (fun _ => false) [⟨false, ["d"]⟩]
    ⟨false, ["d"]⟩ (by decide) rootsC10w (by decide)

/-- The sort relation is `≤` on path keys. -/
theorem fiLe_iff (a b : FileInfo) : fiLeP a b ↔ a.path.key ≤ b.path.key := by
  unfold fiLeP fiLe
  simp [not_lt]

/-- The sort produced by the `Manifest` constructor is ascending by
path. -/
theorem manifestSort_sorted (fis : List FileInfo) :
    List.Pairwise fiLeP (manifestSort fis) := by
  have htot : IsTotal FileInfo fiLeP :=
    ⟨fun a b => by rw [fiLe_iff, fiLe_iff]; exact le_total _ _⟩
  have htrans : IsTrans FileInfo fiLeP :=
    ⟨fun a b c hab hbc => by
      rw [fiLe_iff] at hab hbc ⊢; exact le_trans hab hbc⟩
  exact @List.sorted_insertionSort _ fiLeP _ htot htrans fis

/-- A successfully built manifest from file infos: the fixed header
with empty `Metadata` and the sorted entries. -/
theorem manifestFromFileinfos_ok (hash : HashOracle) (cfg : List String)
    (d g : String) (tags : Option (List String)) (fis : List FileInfo)
    (m : Manifest) (h : manifestFromFileinfos hash cfg d g tags fis = .ok m) :
    m = ⟨⟨cfg, d, g, [], "1.1", tags⟩, manifestSort fis⟩ := by
  unfold manifestFromFileinfos at h
  cases hc : checkFileinfoChecksums hash cfg fis with
  | error e => rw [hc] at h; exact absurd h (by simp)
  | ok u => rw [hc] at h; injection h with h2; rw [← h2]

/-- An emitted content member carries the archive name it was given. -/
theorem addItem_ok_name (fs : FSOracle) (cfg : List String) (dedup : DedupMode)
    (idx : List (DupKey × String)) (fi : FileInfo) (an : String)
    (r : TarEntry × List (DupKey × String))
    (h : addItem fs cfg dedup idx fi an = .ok r) : r.1.name = an := by
  unfold addItem at h
  by_cases hf : fi.ftype = .f
  · rw [if_pos hf] at h
    cases hcd : checkDuplicate fs cfg dedup idx fi an with
    | error e => rw [hcd] at h; exact absurd h (by simp)
    | ok pr =>
        obtain ⟨lk, idx2⟩ := pr
        rw [hcd] at h
        cases lk with
        | some link => injection h with h2; rw [← h2]
        | none => injection h with h2; rw [← h2]
  · rw [if_neg hf] at h
    injection h with h2
    rw [← h2]

/-- The content loop writes one member per file info, named by
`_arcname`. -/
theorem addItems_ok_names (fs : FSOracle) (cfg : List String)
    (dedup : DedupMode) (basedir : PPath) (mdNames : List String) :
    ∀ (fis : List FileInfo) (idx : List (DupKey × String)) (es : List TarEntry),
      addItems fs cfg dedup basedir mdNames idx fis = .ok es →
      es.map TarEntry.name = fis.map (fun fi => arcname basedir fi.path) := by
  intro fis
  induction fis with
  | nil =>
      intro idx es h
      unfold addItems at h
      injection h with h2
      rw [← h2]
      rfl
  | cons fi rest ih =>
      intro idx es h
      unfold addItems at h
      by_cases hmem : mdNames.contains (arcname basedir fi.path)
      · rw [if_pos hmem] at h; exact absurd h (by simp)
      · rw [if_neg hmem] at h
        cases hai : addItem fs cfg dedup idx fi (arcname basedir fi.path) with
        | error e => rw [hai] at h; exact absurd h (by simp)
        | ok pr =>
            obtain ⟨entry, idx2⟩ := pr
            rw [hai] at h
            dsimp only [] at h
            cases hrec : addItems fs cfg dedup basedir mdNames idx2 rest with
            | error e => rw [hrec] at h; simp [Except.map] at h
            | ok es' =>
                rw [hrec] at h
                simp [Except.map] at h
                have hn := addItem_ok_name fs cfg dedup idx fi
                  (arcname basedir fi.path) (entry, idx2) hai
                rw [← h]
                simp [ih idx2 es' hrec]
                exact hn

/-- The metadata loop writes one member per metadata item, named by
`str(md.path)`. -/
theorem addMetadataFiles_ok_names :
    ∀ (mds : List MetadataItemM) (seen : List String) (es : List TarEntry)
      (ns : List String),
      addMetadataFiles seen mds = .ok (es, ns) →
      es.map TarEntry.name = mds.map mdPathStr := by
  intro mds
  induction mds with
  | nil =>
      intro seen es ns h
      unfold addMetadataFiles at h
      injection h with h2
      rw [show es = ([] : List TarEntry) from congrArg Prod.fst h2.symm]
      rfl
  | cons md rest ih =>
      intro seen es ns h
      unfold addMetadataFiles at h
      by_cases hdup : seen.contains (mdPathStr md)
      · rw [if_pos hdup] at h; exact absurd h (by simp)
      · rw [if_neg hdup] at h
        cases hrec : addMetadataFiles (seen ++ [mdPathStr md]) rest with
        | error e => rw [hrec] at h; simp [Except.map] at h
        | ok pr =>
            obtain ⟨es', ns'⟩ := pr
            rw [hrec] at h
            simp [Except.map] at h
            obtain ⟨he, _⟩ := h
            rw [← he]
            simp [ih _ es' ns' hrec]

/-- Folding prepends reverses: the `_metadata` list built by repeated
`insert(0, ...)`. -/
theorem foldl_cons_rev {α β : Type _} (f : α → β) :
    ∀ (l : List α) (acc : List β),
      l.foldl (fun acc x => f x :: acc) acc = (l.map f).reverse ++ acc := by
  intro l
  induction l with
  | nil => intro acc; rfl
  | cons x l ih =>
      intro acc
      simp only [List.foldl_cons, List.map_cons, List.reverse_cons, ih]
      simp

/-- Structure of a successful `Archive.create`: the manifest holds the
sorted file infos; the header's `Metadata` is the manifest path
followed by the registered items' paths in reverse registration order;
and the written member names are exactly the `Metadata` list followed
by the archive names of the sorted entries. -/
theorem archiveCreate_ok_struct (fs : FSOracle) (cfg : List String)
    (dedup : DedupMode) (apn dateStr genStr : String)
    (registered : List (String × Nat)) (fis : List FileInfo)
    (bdOpt : Option PPath) (tags : Option (List String)) (r : CreateRes)
    (h : archiveCreate fs cfg dedup apn dateStr genStr registered fis bdOpt
      tags = .ok r) :
    r.manifest.fileinfos = manifestSort fis ∧
    r.manifest.head.metadata =
      (r.basedir.child ".manifest.yaml").str ::
        (registered.map (fun nm => (r.basedir.child nm.1).str)).reverse ∧
    r.entries.map TarEntry.name =
      r.manifest.head.metadata ++
        (manifestSort fis).map (fun fi => arcname r.basedir fi.path) := by
  unfold archiveCreate at h
  cases hcp : checkPaths fs (fis.map (·.path)) bdOpt apn [] with
  | error e => rw [hcp] at h; exact absurd h (by simp)
  | ok basedir =>
    rw [hcp] at h
    dsimp only [] at h
    cases hmf : manifestFromFileinfos fs.hash cfg dateStr genStr tags fis with
    | error e =>
        rw [hmf] at h
        cases e <;> simp at h
    | ok mfst0 =>
        rw [hmf] at h
        dsimp only [] at h
        split at h
        · exact absurd h (by simp)
        · split at h
          · simp at h
          · split at h
            · simp at h
            · rename_i hbd scrA mdEntries mdNames heqmd scrB contentEs heqai
              injection h with h2
              subst h2
              have hm0 := manifestFromFileinfos_ok fs.hash cfg dateStr genStr
                tags fis mfst0 hmf
              have hmdn := addMetadataFiles_ok_names _ _ _ _ heqmd
              have hcn := addItems_ok_names fs cfg dedup basedir mdNames
                mfst0.fileinfos [] contentEs heqai
              refine ⟨by simp [hm0], ?_, ?_⟩
              · dsimp only []
                rw [foldl_cons_rev]
                simp [List.map_reverse, List.map_map]
              · dsimp only []
                rw [List.map_append, hmdn, hcn, hm0]
                simp [List.map_map, mdPathStr]

/-- C2: the member sequence of every successfully created archive is
exactly the header's `Metadata` list — whose first element is
`<basedir>/.manifest.yaml` — followed by one member per manifest entry
in manifest order, and the manifest order is ascending by path (the
constructor's default sort). -/
theorem c2_create_entry_order (fs : FSOracle) (cfg : List String)
    (dedup : DedupMode) (apn dateStr genStr : String)
    (registered : List (String × Nat)) (fis : List FileInfo)
    (bdOpt : Option PPath) (tags : Option (List String)) (r : CreateRes)
    (h : archiveCreate fs cfg dedup apn dateStr genStr registered fis bdOpt
      tags = .ok r) :
    r.entries.map TarEntry.name =
      r.manifest.head.metadata ++
        r.manifest.fileinfos.map (fun fi => arcname r.basedir fi.path) ∧
    r.manifest.head.metadata.head? =
      some ((r.basedir.child ".manifest.yaml").str) ∧
    List.Pairwise fiLeP r.manifest.fileinfos := by
  obtain ⟨h1, h2, h3⟩ := archiveCreate_ok_struct fs cfg dedup apn dateStr
    genStr registered fis bdOpt tags r h
  refine ⟨?_, ?_, ?_⟩
  · rw [h3, h1]
  · rw [h2]; rfl
  · rw [h1]; exact manifestSort_sorted fis

/-- Witness for C2 at a concrete two-entry archive. -/
theorem c2_create_entry_order_witness :
    archiveCreate fsO ["sha256"] .never "x.tar" "D" "G" [] [fiFileA, fiBase]
        none none = .ok resC2 ∧
    resC2.entries.map TarEntry.name =
      resC2.manifest.head.metadata ++
        resC2.manifest.fileinfos.map (fun fi => arcname resC2.basedir fi.path) ∧
    List.Pairwise fiLeP resC2.manifest.fileinfos := by
  have hc : archiveCreate fsO ["sha256"] .never "x.tar" "D" "G" []
      [fiFileA, fiBase] none none = .ok resC2 := by decide
  have h := c2_create_entry_order fsO ["sha256"] .never "x.tar" "D" "G" []
    [fiFileA, fiBase] none none resC2 hc
  exact ⟨hc, h.1, h.2.2⟩

/-- C6 counterexample: registering `a.yaml` and then `b.yaml` before
`create` yields the metadata prefix manifest, `b.yaml`, `a.yaml` — the
*reverse* of the registration order — both in the tar and in the
header's `Metadata` list, because each `Archive.add_metadata` call does
`self._metadata.insert(0, md)`. -/
theorem c6_counterexample :
    (archiveCreate fsO ["sha256"] .never "x.tar" "D" "G"
        [("a.yaml", 0o600), ("b.yaml", 0o600)] [fiFileA, fiBase] none
        none).map
      (fun r => (r.manifest.head.metadata,
        (r.entries.take 3).map TarEntry.name)) =
      .ok (["base/.manifest.yaml", "base/b.yaml", "base/a.yaml"],
        ["base/.manifest.yaml", "base/b.yaml", "base/a.yaml"]) ∧
    (["base/.manifest.yaml", "base/b.yaml", "base/a.yaml"] : List String) ≠
      ["base/.manifest.yaml", "base/a.yaml", "base/b.yaml"] := by
  refine ⟨by decide, by decide⟩

/-- C6 amended: the metadata prefix consists of the manifest member
first, followed by the registered items in *reverse* order of
registration (`add_metadata` prepends each item), and the header's
`Metadata` list records exactly the same order as the written
prefix. -/
theorem c6_metadata_reverse_registration (fs : FSOracle) (cfg : List String)
    (dedup : DedupMode) (apn dateStr genStr : String)
    (registered : List (String × Nat)) (fis : List FileInfo)
    (bdOpt : Option PPath) (tags : Option (List String)) (r : CreateRes)
    (h : archiveCreate fs cfg dedup apn dateStr genStr registered fis bdOpt
      tags = .ok r) :
    r.manifest.head.metadata =
      (r.basedir.child ".manifest.yaml").str ::
        (registered.map (fun nm => (r.basedir.child nm.1).str)).reverse ∧
    (r.entries.take r.manifest.head.metadata.length).map TarEntry.name =
      r.manifest.head.metadata := by
  obtain ⟨h1, h2, h3⟩ := archiveCreate_ok_struct fs cfg dedup apn dateStr
    genStr registered fis bdOpt tags r h
  refine ⟨h2, ?_⟩
  have htake : (r.entries.map TarEntry.name).take
      r.manifest.head.metadata.length = r.manifest.head.metadata := by
    rw [h3]
    exact List.take_left _ _
  rw [← List.map_take] at htake
  exact htake

/-- Witness for C6 at the two-registration archive. -/
theorem c6_metadata_reverse_registration_witness :
    archiveCreate fsO ["sha256"] .never "x.tar" "D" "G"
        [("a.yaml", 0o600), ("b.yaml", 0o600)] [fiFileA, fiBase] none none
      = .ok resC6 ∧
    resC6.manifest.head.metadata =
      (resC6.basedir.child ".manifest.yaml").str ::
        ([("a.yaml", 0o600), ("b.yaml", 0o600)].map
          (fun nm : String × Nat => (resC6.basedir.child nm.1).str)).reverse ∧
    (resC6.entries.take resC6.manifest.head.metadata.length).map
        TarEntry.name = resC6.manifest.head.metadata := by
  have hc : archiveCreate fsO ["sha256"] .never "x.tar" "D" "G"
      [("a.yaml", 0o600), ("b.yaml", 0o600)] [fiFileA, fiBase] none none
      = .ok resC6 := by decide
  have h := c6_metadata_reverse_registration fsO ["sha256"] .never "x.tar"
    "D" "G" [("a.yaml", 0o600), ("b.yaml", 0o600)] [fiFileA, fiBase] none
    none resC6 hc
  exact ⟨hc, h.1, h.2⟩
